import Mathlib

/-!
# Verification of the netcdfplus object-store layer

Shallow embedding of `openpathsampling/netcdfplus/objects.py`:
the base `ObjectStore` (slot allocation, identity map, cache, recursive
save with slot reservation), `NamedObjectStore` (name column and name
index), `UniqueNamedObjectStore` (name reservation and uniqueness checks),
`VariableStore` (flat records, bulk caching) and `DictStore`.

Modelling conventions:
* A stored object is identified by a numeric id `oid`; object identity in
  Python (the keys of the weak identity map `self.index`) is modelled by
  equality of ids.  Serialisation of an object can recursively trigger
  saves of contained sub-objects; this is modelled by the `kids` field of
  `Obj` (the sub-objects saved, in order, while the record of the parent
  is being serialised), and `bad` marks an object whose own backend write
  raises.
* The netCDF backend is modelled by association lists from slot to value;
  writing at slot `i` extends the extensible dimension to `i + 1`.
* Python exceptions are values of `Err`.  The constructor names follow
  the abstract error taxonomy of the specification; the concrete Python
  exception class is recorded in a comment on each constructor.
* State threading is explicit: mutating methods return the new store
  state next to their result, and an operation that raises still returns
  the (mutated) state it left behind, as the Python exception does.
-/

namespace NetcdfPlus

/-- Errors raised by the store layer.  Constructor names follow the
specification's taxonomy (§7); comments give the Python exception used
in the source. -/
inductive Err where
  /-- `ValueError` for a malformed index / unsupported index type. -/
  | invalidIndex : Err
  /-- `ValueError` raised by `ObjectStore.save` when the object is not an
  instance of the store's `content_class`. -/
  | typeMismatch : Err
  /-- `ValueError("str ... not found in storage")` raised by
  `NamedObjectStore.load` for an unknown name. -/
  | notFound : Err
  /-- `KeyError` raised by dictionary lookups (`DictStore.load`,
  `NamedObjectStore.find_indices`) for an unknown key. -/
  | keyError : Err
  /-- `RuntimeError` raised on internal consistency failures
  (`DictStore.load` with an out-of-range slot) and used here for a failing
  backend write. -/
  | runtimeError : Err
  /-- `RuntimeWarning` raised by `UniqueNamedObjectStore.save` on a
  uniqueness / rename violation (the specification's `NameConflict`). -/
  | nameConflict : Err
deriving DecidableEq, Repr

/-- First-match lookup in an association list keyed by `Nat`
(models a Python `dict` / `WeakKeyDictionary`; updates are modelled by
consing, so the head is the most recent binding). -/
def flook {α : Type} : List (Nat × α) → Nat → Option α
  | [], _ => none
  | (k, v) :: t, i => if k = i then some v else flook t i

/-- First-match lookup in an association list keyed by `String`
(models the `_name_idx` dictionary). -/
def slook {α : Type} : List (String × α) → String → Option α
  | [], _ => none
  | (k, v) :: t, s => if k = s then some v else slook t s

mutual
/-- A storable object: its id, its `_name`, its `_name_fixed` flag,
whether its own backend (json) write fails, and the sub-objects whose
save is triggered while this object is being serialised. -/
inductive Obj where
  | mk (oid : Nat) (nm : String) (fixed : Bool) (bad : Bool) (kids : Kids) : Obj

/-- A list of sub-objects saved during serialisation of a parent. -/
inductive Kids where
  | nil : Kids
  | cons (o : Obj) (rest : Kids) : Kids
end

/-- The object's identity (Python object identity, key of `self.index`). -/
def Obj.oid : Obj → Nat
  | .mk i _ _ _ _ => i

/-- The object's `_name` attribute. -/
def Obj.nm : Obj → String
  | .mk _ n _ _ _ => n

/-- The object's `_name_fixed` attribute. -/
def Obj.fixed : Obj → Bool
  | .mk _ _ f _ _ => f

/-- Whether the backend write of this object's own record raises. -/
def Obj.bad : Obj → Bool
  | .mk _ _ _ b _ => b

/-- The sub-objects saved while this object is being serialised. -/
def Obj.kids : Obj → Kids
  | .mk _ _ _ _ k => k

/-- State of one object store (fields of `ObjectStore` and its
subclasses that the verified operations touch).  `nameIdx` / `freeName`
belong to the named / unique-named subclasses; they are carried in the
one state record as the Python subclasses inherit all base fields. -/
structure St where
  /-- `len(self)`: current extent of the store's netCDF dimension. -/
  length : Nat
  /-- The backend `json` column: slot ↦ id of the object recorded there. -/
  jsonCol : List (Nat × Nat)
  /-- The backend `name` column of named stores: slot ↦ name. -/
  nameCol : List (Nat × String)
  /-- `self._free`: the transient slot reservation set. -/
  free : Finset Nat
  /-- `self.index` (weak identity map): object id ↦ slot. -/
  index : List (Nat × Nat)
  /-- `self.cache`: slot ↦ object id (an unbounded cache). -/
  cache : List (Nat × Nat)
  /-- `self._name_idx`: name ↦ set of slots ever recorded under it.
  The model represents the steady state in which the lazy name cache has
  been populated (`self._names_loaded` true) and is maintained
  incrementally by `_update_name_in_cache`. -/
  nameIdx : List (String × Finset Nat)
  /-- `self._free_name` of `UniqueNamedObjectStore`: the transient name
  reservation set. -/
  freeName : Finset String
  /-- `isinstance(obj, self.content_class)`, by object id. -/
  isInstance : Nat → Bool

namespace ObjectStore

/-- Scan upward from `i`, skipping members of the reservation set `f`;
`fuel` bounds the scan (the Python `while` loop terminates because `f`
is finite). -/
def freeFrom (f : Finset Nat) : Nat → Nat → Nat
  | 0, i => i
  | fuel + 1, i => if i ∈ f then freeFrom f fuel (i + 1) else i

/-- `ObjectStore.free`: the next free slot — start at the current length
and skip any reserved slots. -/
def free (st : St) : Nat :=
  freeFrom st.free (st.free.card + 1) st.length

/-- `ObjectStore.reserve_idx`: lock a slot as used. -/
def reserve_idx (st : St) (i : Nat) : St :=
  { st with free := insert i st.free }

/-- `ObjectStore.release_idx`: release the lock on a slot. -/
def release_idx (st : St) (i : Nat) : St :=
  { st with free := st.free.erase i }

/-- Backend write of the serialised record (`self.vars['json'][idx] = obj`):
stores the record and extends the extensible dimension. -/
def writeJson (st : St) (i oid : Nat) : St :=
  { st with jsonCol := (i, oid) :: st.jsonCol, length := max st.length (i + 1) }

mutual
/-- `ObjectStore.save(obj)`.  Returns the final state, the outcome
(assigned slot, or the propagated exception), and the ghost trace of the
slots assigned during this (possibly recursive) save, in order of
allocation.  Body, following the source: identity-map hit returns the
existing slot; type check; choose `free()`; bind the identity map;
`reserve_idx`; `_save` = recursively save the sub-objects triggered by
serialisation, then write the json record (which may raise); release the
reservation on every exit path (`finally`); update the cache on success. -/
def save (st : St) (o : Obj) : St × Except Err Nat × List Nat :=
  match o with
  | .mk oid _ _ bad kids =>
    match flook st.index oid with
    | some i => (st, .ok i, [])
    | none =>
      if ¬ st.isInstance oid then (st, .error .typeMismatch, [])
      else
        let i := free st
        let st1 := { st with index := (oid, i) :: st.index }
        let st2 := reserve_idx st1 i
        match saveKids st2 kids with
        | (st3, .error e, tr) => (release_idx st3 i, .error e, i :: tr)
        | (st3, .ok _, tr) =>
          if bad then (release_idx st3 i, .error .runtimeError, i :: tr)
          else
            let st4 := writeJson st3 i oid
            let st5 := release_idx st4 i
            (( { st5 with cache := (i, oid) :: st5.cache } : St), .ok i, i :: tr)

/-- Save each sub-object in turn (the recursive saves issued during
serialisation of a parent), stopping at the first propagated failure. -/
def saveKids (st : St) : Kids → St × Except Err Unit × List Nat
  | .nil => (st, .ok (), [])
  | .cons o rest =>
    match save st o with
    | (st1, .error e, tr) => (st1, .error e, tr)
    | (st1, .ok _, tr) =>
      match saveKids st1 rest with
      | (st2, r, tr2) => (st2, r, tr ++ tr2)
end

/-- `ObjectStore._save(obj, idx)` on its own (used directly — without the
surrounding reserve/release and identity-map update — by `DictStore.save`):
serialising the object recursively saves its sub-objects, then the json
record itself is written (`self.vars['json'][idx] = obj`), which may
raise.  `ObjectStore.save` above inlines this same body between
`reserve_idx` and `release_idx`. -/
def _save (st : St) (o : Obj) (i : Nat) : St × Except Err Unit × List Nat :=
  match saveKids st o.kids with
  | (st1, .error e, tr) => (st1, .error e, tr)
  | (st1, .ok _, tr) =>
    if o.bad then (st1, .error .runtimeError, tr)
    else (writeJson st1 i o.oid, .ok (), tr)

/-- `ObjectStore._load(idx)`: read the json record at a slot and rebuild
the object (`self.vars['json'][idx]`). -/
def _load (st : St) (i : Nat) : Option Nat :=
  flook st.jsonCol i

/-- `ObjectStore.load(idx)`: a negative index returns `None`; a cache hit
returns the cached instance; an index at or beyond the current length
returns `None`; otherwise the record is fetched, the identity map is
bound and the cache updated.  (If `_load` produced no object the source
would bind `None` in the weak identity map and fail; that branch is
unreachable for slots below the current length in reachable states and
is modelled as returning no object.) -/
def load (st : St) (idx : Int) : St × Except Err (Option Nat) :=
  if idx < 0 then (st, .ok none)
  else
    let n : Nat := idx.toNat
    match flook st.cache n with
    | some o => (st, .ok (some o))
    | none =>
      if st.length ≤ n then (st, .ok none)
      else
        match _load st n with
        | none => (st, .ok none)
        | some o =>
          (({ st with index := (o, n) :: st.index, cache := (n, o) :: st.cache } : St),
           .ok (some o))

/-- Argument of `ObjectStore.proxy`: `None`, an `int`, or a (non-int)
object given by its id. -/
inductive PItem where
  | noneIt : PItem
  | intIt (n : Int) : PItem
  | objIt (oid : Nat) : PItem
deriving DecidableEq, Repr

/-- Result of `ObjectStore.proxy`: `None`, a `LoaderProxy(self, idx)`
(the lazy placeholder identified by this store and a slot), or the
argument object returned unchanged. -/
inductive PRes where
  | noneR : PRes
  | loaderProxy (slot : Int) : PRes
  | raw (oid : Nat) : PRes
deriving DecidableEq, Repr

/-- `ObjectStore.proxy(item)`: `None` maps to `None`; an `int` is wrapped
directly; an object is looked up in the identity map — if present, a
`LoaderProxy` on its slot is returned, otherwise the object itself is
returned. -/
def proxy (st : St) : PItem → PRes
  | .noneIt => .noneR
  | .intIt n => .loaderProxy n
  | .objIt oid =>
    match flook st.index oid with
    | none => .raw oid
    | some i => .loaderProxy (i : Int)

end ObjectStore

/-- An identifier passed to `load` of a named store: an `int` slot or a
`str` name. -/
inductive Idx where
  | i (n : Int) : Idx
  | s (v : String) : Idx
deriving DecidableEq, Repr

namespace NamedObjectStore

/-- `NamedObjectStore._update_name_in_cache(name, idx)` acting on the
`_name_idx` dictionary: an empty name is ignored; otherwise the slot is
added to the (possibly new) slot set of the name. -/
def update_name_in_cache (l : List (String × Finset Nat)) (nm : String) (i : Nat) :
    List (String × Finset Nat) :=
  if nm = "" then l
  else
    match slook l nm with
    | none => (nm, {i}) :: l
    | some s => (nm, insert i s) :: l

/-- `_update_name_in_cache` lifted to the store state. -/
def updName (st : St) (nm : String) (i : Nat) : St :=
  { st with nameIdx := update_name_in_cache st.nameIdx nm i }

/-- Backend write of the name column
(`self.storage.variables[self.prefix + '_name'][n_idx] = name`). -/
def writeName (st : St) (i : Nat) (nm : String) : St :=
  { st with nameCol := (i, nm) :: st.nameCol, length := max st.length (i + 1) }

/-- `NamedObjectStore.find_indices(name)`: all slots ever used for the
name, ascending (`sorted(list(self.name_idx[name]))`); an unknown name
raises `KeyError` from the dictionary subscript. -/
def find_indices (st : St) (nm : String) : Except Err (List Nat) :=
  match slook st.nameIdx nm with
  | none => .error .keyError
  | some s => .ok (s.sort (· ≤ ·))

/-- `NamedObjectStore.find_all(name)`: load every object ever stored
under the name (given here by their ascending slots, each of which the
source then materialises with `load`); an unknown name raises `KeyError`;
a (unreachable) empty slot set would make the function fall through and
return `None`. -/
def find_all (st : St) (nm : String) : Except Err (Option (List Nat)) :=
  match slook st.nameIdx nm with
  | none => .error .keyError
  | some s => if 0 < s.card then .ok (some (s.sort (· ≤ ·))) else .ok none

/-- Modelled from the spec: the `name` setter of `StorableNamedObject`
(`base.py`, which is not under `src/`) — "if `name` is supplied, bind it
to the object before delegating to the base save"; a name already fixed
on the object "can never be changed by a later save" (§3 invariant 4, §4.2). -/
def setName (o : Obj) (s : String) : Obj :=
  if o.fixed then o
  else .mk o.oid s o.fixed o.bad o.kids

/-- Modelled from the spec: `fix_name` of `StorableNamedObject`
(`base.py`, not under `src/`) — "once an object's name is fixed by a
successful save, it can never be changed", and "after loading, the
object's name becomes fixed" (§3 invariant 4, §4.2). -/
def fixName (o : Obj) : Obj :=
  .mk o.oid o.nm true o.bad o.kids

/-- `NamedObjectStore.save(obj, idx)`: a string `idx` is bound to the
object as its name; then the base save runs,
the name is fixed, the name column is written at the assigned slot and
the name index updated.  Returns the state, the (possibly renamed /
name-fixed) object, the outcome and the slot-allocation trace. -/
def save (st : St) (o : Obj) (idx : Option String) : St × Obj × Except Err Nat × List Nat :=
  let o1 := match idx with
    | some s => setName o s
    | none => o
  let nm := o1.nm
  match ObjectStore.save st o1 with
  | (st1, .error e, tr) => (st1, o1, .error e, tr)
  | (st1, .ok i, tr) =>
    let o2 := fixName o1
    let st2 := writeName st1 i nm
    let st3 := updName st2 nm i
    (st3, o2, .ok i, tr)

/-- `NamedObjectStore.load(idx)`: a non-string negative index returns
`None`; a string is resolved through the name index to the numerically
largest slot recorded under it (`sorted(list(...))[-1]`) and an unknown
name raises; then the base load runs, the loaded object's name is set
from the name column, fixed, and re-entered into the name index. -/
def load (st : St) (idx : Idx) : St × Except Err (Option Nat) :=
  match idx with
  | .i n =>
    if n < 0 then (st, .ok none)
    else ObjectStore.load st n
  | .s v =>
    match slook st.nameIdx v with
    | none => (st, .error .notFound)
    | some s =>
      match s.max with
      | none => (st, .error .runtimeError)
      | some n =>
        match ObjectStore.load st (n : Int) with
        | (st1, .error e) => (st1, .error e)
        | (st1, .ok none) => (st1, .ok none)
        | (st1, .ok (some o)) =>
          let nmAt := (flook st1.nameCol n).getD ""
          (updName st1 nmAt n, .ok (some o))

end NamedObjectStore

namespace UniqueNamedObjectStore

/-- `UniqueNamedObjectStore.reserve_name(name)`: lock a name as used;
the empty name is never locked. -/
def reserve_name (st : St) (nm : String) : St :=
  if nm = "" then st
  else { st with freeName := insert nm st.freeName }

/-- `UniqueNamedObjectStore.release_name(name)`: release a locked name. -/
def release_name (st : St) (nm : String) : St :=
  { st with freeName := st.freeName.erase nm }

/-- `UniqueNamedObjectStore.is_name_locked(name)`: the name is in the
committed name index or in the transient name reservation set. -/
def is_name_locked (st : St) (nm : String) : Bool :=
  (slook st.nameIdx nm).isSome || nm ∈ st.freeName

/-- The reservation-protected tail of `UniqueNamedObjectStore.save`
(source lines after the conflict checks): reserve the object's current
`_name` (as read at entry, before any rename inside the named save), run
the possibly recursive named save, and release the reservation on every
exit path (`finally`). -/
def saveReserved (st : St) (o : Obj) (idx : Option String) :
    St × Obj × Except Err Nat × List Nat :=
  match NamedObjectStore.save (reserve_name st o.nm) o idx with
  | (st2, o2, r, tr) => (release_name st2 o.nm, o2, r, tr)

/-- `UniqueNamedObjectStore.save(obj, idx)`: the uniqueness / rename
checks of the source, in order; if any check fails, `NameConflict` is
raised before any state change; re-saving an already-saved object under
its own fixed name returns the existing slot without touching anything.
Otherwise the reservation-protected tail `saveReserved` runs.  The
branch nesting mirrors the source: with an explicit string index, a
fixed object is refused under a different name, accepted silently under
its own name (identity-map hit returns early, and — as in the source —
`is_name_locked` is never consulted on this path), and an unfixed object
is refused when the requested name is locked; without an explicit index,
a fixed saved object returns early and otherwise the object's current
name must not be locked. -/
def save (st : St) (o : Obj) (idx : Option String) : St × Obj × Except Err Nat × List Nat :=
  let nm := o.nm
  match idx with
  | some s =>
    if o.fixed then
      if nm ≠ s then
        (st, o, .error .nameConflict, [])
      else if (flook st.index o.oid).isSome then
        (st, o, .ok ((flook st.index o.oid).getD 0), [])
      else
        saveReserved st o idx
    else
      if is_name_locked st s then
        (st, o, .error .nameConflict, [])
      else
        saveReserved st o idx
  | none =>
    if o.fixed then
      if (flook st.index o.oid).isSome then
        (st, o, .ok ((flook st.index o.oid).getD 0), [])
      else if is_name_locked st nm then
        (st, o, .error .nameConflict, [])
      else
        saveReserved st o idx
    else
      if is_name_locked st nm then
        (st, o, .error .nameConflict, [])
      else
        saveReserved st o idx

end UniqueNamedObjectStore

namespace DictStore

/-- `DictStore.load(idx)`: a string key is resolved through the name
index to the numerically largest slot recorded under it (an unknown key
raises `KeyError`); then — unlike the base store — an out-of-range or
negative slot raises `RuntimeError` instead of returning an empty
result, and otherwise the record at the slot is returned. -/
def load (st : St) (idx : Idx) : Except Err (Option Nat) :=
  match idx with
  | .s v =>
    match slook st.nameIdx v with
    | none => .error .keyError
    | some s =>
      match s.max with
      | none => .error .runtimeError
      | some n =>
        if st.length ≤ n then .error .runtimeError
        else .ok (ObjectStore._load st n)
  | .i n =>
    if (n : Int) ≥ (st.length : Int) then .error .runtimeError
    else if n < 0 then .error .runtimeError
    else .ok (ObjectStore._load st n.toNat)

/-- `DictStore.save(obj, idx)`: a `DictStore` key must be a supplied
string; the next free slot is taken and reserved, `_save` writes the
record (recursively saving sub-objects first), the name column and name
index are updated, and the slot is returned.  The source has no
`try/finally` here and never calls `release_idx`: the reservation stays
in `self._free` on both the normal return and a propagated failure. -/
def save (st : St) (o : Obj) (idx : Option String) : St × Except Err Nat × List Nat :=
  match idx with
  | none => (st, .error .invalidIndex, [])
  | some s =>
    let i := ObjectStore.free st
    let st1 := ObjectStore.reserve_idx st i
    match ObjectStore._save st1 o i with
    | (st2, .error e, tr) => (st2, .error e, i :: tr)
    | (st2, .ok _, tr) =>
      let st3 := NamedObjectStore.writeName st2 i s
      let st4 := NamedObjectStore.updName st3 s i
      (st4, .ok i, i :: tr)

end DictStore

namespace ImmutableDictStore

/-- `ImmutableDictStore.save(obj, idx)`: re-saving an existing key
raises (`KeyConflict` in the specification's taxonomy, a `RuntimeWarning`
in the source); otherwise the mutable `DictStore.save` runs. -/
def save (st : St) (o : Obj) (idx : Option String) : St × Except Err Nat × List Nat :=
  match idx with
  | some s =>
    if (slook st.nameIdx s).isSome then (st, .error .nameConflict, [])
    else DictStore.save st o idx
  | none =>
    -- `None in self.name_idx` is false, so the base (mutable) save runs
    -- and rejects the missing key itself
    DictStore.save st o idx

end ImmutableDictStore

/-- State of a `VariableStore` (flat fixed-schema records): the record
columns are modelled jointly as one association from slot to the tuple
of field values, identified by a record id. -/
structure VSt where
  /-- Current extent of the store's dimension. -/
  length : Nat
  /-- The declared field columns, read jointly: slot ↦ record. -/
  recs : List (Nat × Nat)
  /-- `self.cache`: slot ↦ object id. -/
  cache : List (Nat × Nat)
  /-- `self.index`: object id ↦ slot. -/
  index : List (Nat × Nat)
  /-- `self._cached_all`: the "fully cached" flag. -/
  cachedAll : Bool

namespace VariableStore

/-- Insert into a sorted duplicate-free list (used to model Python's
`sorted(list(set(part)))`). -/
def insSorted (i : Nat) : List Nat → List Nat
  | [] => [i]
  | j :: t =>
    if i < j then i :: j :: t
    else if i = j then j :: t
    else j :: insSorted i t

/-- `sorted(list(set(part)))`: the distinct elements of `part` in
ascending order. -/
def dedupSort (l : List Nat) : List Nat :=
  l.foldr insSorted []

/-- `VariableStore.add_to_cache(idx, data)`: if the slot is not yet
cached, rebuild the object from the record (`self.content_class(**attr)`,
its id given by the record) and bind identity map and cache. -/
def add_to_cache (st : VSt) (i d : Nat) : VSt :=
  if (flook st.cache i).isSome then st
  else { st with index := (d, i) :: st.index, cache := (i, d) :: st.cache }

/-- `VariableStore.cache_all(part)`: `part=None` selects every slot,
otherwise the de-duplicated, sorted `part`; an empty selection returns
immediately; if the "fully cached" flag is not yet set, the selected
slots are bulk-read and added to the cache, and the flag is set — the
source sets `self._cached_all = True` even when `part` was a proper
subset of the existing slots. -/
def cache_all (st : VSt) (part : Option (List Nat)) : VSt :=
  let p : List Nat :=
    match part with
    | none => List.range st.length
    | some l => dedupSort l
  if p = [] then st
  else if st.cachedAll then st
  else
    let st1 := p.foldl (fun s i =>
      match flook st.recs i with
      | none => s
      | some d => add_to_cache s i d) st
    { st1 with cachedAll := true }

end VariableStore

/-! ## Helper lemmas -/

/-- Whether an `Except` outcome is a success. -/
def okb {α : Type} : Except Err α → Bool
  | .ok _ => true
  | .error _ => false

theorem flook_cons_self {α : Type} (l : List (Nat × α)) (k : Nat) (v : α) :
    flook ((k, v) :: l) k = some v := by
  simp [flook]

theorem flook_cons_ne {α : Type} (l : List (Nat × α)) {k i : Nat} (v : α) (h : k ≠ i) :
    flook ((k, v) :: l) i = flook l i := by
  simp [flook, h]

theorem ObjectStore.freeFrom_ge (f : Finset Nat) :
    ∀ fuel i, i ≤ ObjectStore.freeFrom f fuel i := by
  intro fuel
  induction fuel with
  | zero => intro i; simp [ObjectStore.freeFrom]
  | succ n ih =>
    intro i
    simp only [ObjectStore.freeFrom]
    split
    · exact le_trans (Nat.le_succ i) (ih (i + 1))
    · exact le_refl i

theorem ObjectStore.freeFrom_not_mem (f : Finset Nat) :
    ∀ fuel i, (f.filter (fun j => i ≤ j)).card < fuel →
      ObjectStore.freeFrom f fuel i ∉ f := by
  intro fuel
  induction fuel with
  | zero => intro i h; exact absurd h (Nat.not_lt_zero _)
  | succ n ih =>
    intro i h
    simp only [ObjectStore.freeFrom]
    split
    · rename_i hmem
      apply ih (i + 1)
      have hsub : f.filter (fun j => i + 1 ≤ j) ⊆ (f.filter (fun j => i ≤ j)).erase i := by
        intro x hx
        simp only [Finset.mem_filter] at hx
        simp only [Finset.mem_erase, Finset.mem_filter]
        exact ⟨by omega, hx.1, by omega⟩
      have h1 := Finset.card_le_card hsub
      have h2 : ((f.filter (fun j => i ≤ j)).erase i).card =
          (f.filter (fun j => i ≤ j)).card - 1 :=
        Finset.card_erase_of_mem (Finset.mem_filter.mpr ⟨hmem, le_refl i⟩)
      have h3 : 0 < (f.filter (fun j => i ≤ j)).card :=
        Finset.card_pos.mpr ⟨i, Finset.mem_filter.mpr ⟨hmem, le_refl i⟩⟩
      omega
    · rename_i hnmem
      exact hnmem

/-- The slot chosen by `ObjectStore.free` is not reserved and not below
the current length. -/
theorem ObjectStore.free_spec (st : St) :
    ObjectStore.free st ∉ st.free ∧ st.length ≤ ObjectStore.free st := by
  constructor
  · apply ObjectStore.freeFrom_not_mem
    have := Finset.card_filter_le st.free (fun j => st.length ≤ j)
    omega
  · exact ObjectStore.freeFrom_ge st.free _ st.length

/-- Invariant relating the state before and after one (sub)tree of
recursive saves: the slot reservation set is restored exactly, the
extent only grows, the name column / name index / name reservation set
of the named layers are untouched by the base save, the ghost allocation
trace is duplicate-free and consists of slots that were neither reserved
nor below the extent at entry (and lie below the final extent if the
save succeeded), and every existing identity-map binding survives. -/
structure Sinv (st st' : St) (ok : Bool) (tr : List Nat) : Prop where
  free_eq : st'.free = st.free
  len_mono : st.length ≤ st'.length
  nameCol_eq : st'.nameCol = st.nameCol
  nameIdx_eq : st'.nameIdx = st.nameIdx
  freeName_eq : st'.freeName = st.freeName
  inst_eq : st'.isInstance = st.isInstance
  nodup : tr.Nodup
  fresh : ∀ j ∈ tr, j ∉ st.free ∧ st.length ≤ j
  bounded : ok = true → ∀ j ∈ tr, j < st'.length
  index_mono : ∀ k v, flook st.index k = some v → flook st'.index k = some v

mutual

theorem save_inv (o : Obj) (st st' : St) (r : Except Err Nat) (tr : List Nat)
    (h : ObjectStore.save st o = (st', r, tr)) :
    Sinv st st' (okb r) tr ∧ (∀ n, r = .ok n → flook st'.index o.oid = some n) ∧
      (flook st.index o.oid = none → st.isInstance o.oid = true →
        flook st'.index o.oid = some (ObjectStore.free st)) := by
  cases o with
  | mk oid nm fx bad kids =>
    rw [ObjectStore.save] at h
    cases hidx : flook st.index oid with
    | some i =>
      rw [hidx] at h
      injection h with h1 h2
      injection h2 with h2 h3
      subst h1; subst h2; subst h3
      refine ⟨⟨rfl, le_refl _, rfl, rfl, rfl, rfl, List.nodup_nil, ?_, ?_, ?_⟩, ?_, ?_⟩
      · intro j hj; exact absurd hj (List.not_mem_nil j)
      · intro _ j hj; exact absurd hj (List.not_mem_nil j)
      · intro k v hv; exact hv
      · intro n hn
        injection hn with hn; subst hn
        exact hidx
      · intro h1 _
        simp only [Obj.oid] at h1
        rw [h1] at hidx
        exact Option.noConfusion hidx
    | none =>
      rw [hidx] at h
      by_cases hinst : st.isInstance oid
      · simp only [hinst, not_true_eq_false, if_false] at h
        set i := ObjectStore.free st with hi
        have hfree := ObjectStore.free_spec st
        rw [← hi] at hfree
        set st1 : St := { st with index := (oid, i) :: st.index } with hst1
        set st2 : St := ObjectStore.reserve_idx st1 i with hst2
        have hst2free : st2.free = insert i st.free := rfl
        have hst2len : st2.length = st.length := rfl
        cases hk : ObjectStore.saveKids st2 kids with
        | mk st3 rest =>
          cases rest with
          | mk rk trk =>
            have K := saveKids_inv kids st2 st3 rk trk hk
            rw [hk] at h
            have hkfresh : ∀ j ∈ trk, j ∉ st.free ∧ st.length ≤ j ∧ j ≠ i := by
              intro j hj
              have := K.fresh j hj
              rw [hst2free, hst2len] at this
              have h1 : j ∉ insert i st.free := this.1
              refine ⟨fun hm => h1 (Finset.mem_insert_of_mem hm), this.2, ?_⟩
              intro hji; exact h1 (hji ▸ Finset.mem_insert_self i st.free)
            have hkfree : st3.free = insert i st.free := by
              rw [K.free_eq, hst2free]
            have hklen : st.length ≤ st3.length := by
              have := K.len_mono; rw [hst2len] at this; exact this
            have hidxmono : ∀ k v, flook st.index k = some v → flook st3.index k = some v := by
              intro k v hv
              apply K.index_mono
              show flook ((oid, i) :: st.index) k = some v
              have hk_ne : oid ≠ k := by
                intro he; rw [he] at hidx; rw [hidx] at hv; exact Option.noConfusion hv
              rw [flook_cons_ne _ _ hk_ne]; exact hv
            have hoid3 : flook st3.index oid = some i := by
              apply K.index_mono
              exact flook_cons_self _ _ _
            have hreleq : ∀ s : St, s.free = insert i st.free →
                (ObjectStore.release_idx s i).free = st.free := by
              intro s hs
              show s.free.erase i = st.free
              rw [hs, Finset.erase_insert hfree.1]
            cases rk with
            | error e =>
              simp only [] at h
              injection h with h1 h2
              injection h2 with h2 h3
              subst h1; subst h2; subst h3
              refine ⟨⟨hreleq st3 hkfree, hklen, K.nameCol_eq, K.nameIdx_eq,
                K.freeName_eq, K.inst_eq, ?_, ?_, ?_, ?_⟩, ?_, ?_⟩
              · exact List.nodup_cons.mpr
                  ⟨fun hm => (hkfresh i hm).2.2 rfl, K.nodup⟩
              · intro j hj
                rcases List.mem_cons.mp hj with hji | hjm
                · subst hji; exact ⟨hfree.1, hfree.2⟩
                · exact ⟨(hkfresh j hjm).1, (hkfresh j hjm).2.1⟩
              · intro hok; exact absurd hok (by simp [okb])
              · exact hidxmono
              · intro n hn; exact Except.noConfusion hn
              · intro _ _
                simpa [Obj.oid, ObjectStore.release_idx] using hoid3
            | ok u =>
              by_cases hbad : bad
              · simp only [hbad, if_true] at h
                injection h with h1 h2
                injection h2 with h2 h3
                subst h1; subst h2; subst h3
                refine ⟨⟨hreleq st3 hkfree, hklen, K.nameCol_eq, K.nameIdx_eq,
                  K.freeName_eq, K.inst_eq, ?_, ?_, ?_, ?_⟩, ?_, ?_⟩
                · exact List.nodup_cons.mpr
                    ⟨fun hm => (hkfresh i hm).2.2 rfl, K.nodup⟩
                · intro j hj
                  rcases List.mem_cons.mp hj with hji | hjm
                  · subst hji; exact ⟨hfree.1, hfree.2⟩
                  · exact ⟨(hkfresh j hjm).1, (hkfresh j hjm).2.1⟩
                · intro hok; exact absurd hok (by simp [okb])
                · exact hidxmono
                · intro n hn; exact Except.noConfusion hn
                · intro _ _
                  simpa [Obj.oid, ObjectStore.release_idx] using hoid3
              · simp only [hbad, if_false] at h
                injection h with h1 h2
                injection h2 with h2 h3
                subst h1; subst h2; subst h3
                have hwlen : (ObjectStore.writeJson st3 i oid).length = max st3.length (i + 1) := rfl
                refine ⟨⟨?_, ?_, K.nameCol_eq, K.nameIdx_eq, K.freeName_eq, K.inst_eq,
                    ?_, ?_, ?_, ?_⟩, ?_, ?_⟩
                · show ((ObjectStore.writeJson st3 i oid).free.erase i) = st.free
                  have : (ObjectStore.writeJson st3 i oid).free = insert i st.free := hkfree
                  rw [this, Finset.erase_insert hfree.1]
                · show st.length ≤ max st3.length (i + 1)
                  omega
                · exact List.nodup_cons.mpr
                    ⟨fun hm => (hkfresh i hm).2.2 rfl, K.nodup⟩
                · intro j hj
                  rcases List.mem_cons.mp hj with hji | hjm
                  · subst hji; exact ⟨hfree.1, hfree.2⟩
                  · exact ⟨(hkfresh j hjm).1, (hkfresh j hjm).2.1⟩
                · intro _ j hj
                  show j < max st3.length (i + 1)
                  rcases List.mem_cons.mp hj with hji | hjm
                  · omega
                  · have := K.bounded rfl j hjm
                    omega
                · intro k v hv
                  exact hidxmono k v hv
                · intro n hn
                  injection hn with hn; subst hn
                  exact hoid3
                · intro _ _
                  simpa [Obj.oid, ObjectStore.release_idx, ObjectStore.writeJson] using hoid3
      · simp only [hinst, not_false_eq_true, if_true] at h
        injection h with h1 h2
        injection h2 with h2 h3
        subst h1; subst h2; subst h3
        refine ⟨⟨rfl, le_refl _, rfl, rfl, rfl, rfl, List.nodup_nil, ?_, ?_, ?_⟩, ?_, ?_⟩
        · intro j hj; exact absurd hj (List.not_mem_nil j)
        · intro _ j hj; exact absurd hj (List.not_mem_nil j)
        · intro k v hv; exact hv
        · intro n hn; exact Except.noConfusion hn
        · intro _ h2
          simp only [Obj.oid] at h2
          exact absurd (by simpa using h2) hinst

theorem saveKids_inv (ks : Kids) (st st' : St) (r : Except Err Unit) (tr : List Nat)
    (h : ObjectStore.saveKids st ks = (st', r, tr)) :
    Sinv st st' (okb r) tr := by
  cases ks with
  | nil =>
    rw [ObjectStore.saveKids] at h
    injection h with h1 h2
    injection h2 with h2 h3
    subst h1; subst h2; subst h3
    refine ⟨rfl, le_refl _, rfl, rfl, rfl, rfl, List.nodup_nil, ?_, ?_, ?_⟩
    · intro j hj; exact absurd hj (List.not_mem_nil j)
    · intro _ j hj; exact absurd hj (List.not_mem_nil j)
    · intro k v hv; exact hv
  | cons o rest =>
    rw [ObjectStore.saveKids] at h
    cases ho : ObjectStore.save st o with
    | mk st1 p1 =>
      cases p1 with
      | mk r1 tr1 =>
        have H1 := (save_inv o st st1 r1 tr1 ho).1
        rw [ho] at h
        cases r1 with
        | error e =>
          simp only [] at h
          injection h with h1 h2
          injection h2 with h2 h3
          subst h1; subst h2; subst h3
          exact H1
        | ok _ =>
          simp only [] at h
          cases hrest : ObjectStore.saveKids st1 rest with
          | mk st2 p2 =>
            cases p2 with
            | mk r2 tr2 =>
              have H2 := saveKids_inv rest st1 st2 r2 tr2 hrest
              rw [hrest] at h
              simp only [] at h
              injection h with h1 h2
              injection h2 with h2 h3
              subst h1; subst h2; subst h3
              have hb1 : ∀ j ∈ tr1, j < st1.length := H1.bounded rfl
              have hfresh2 : ∀ j ∈ tr2, j ∉ st.free ∧ st.length ≤ j := by
                intro j hj
                have := H2.fresh j hj
                rw [H1.free_eq] at this
                exact ⟨this.1, le_trans H1.len_mono this.2⟩
              refine ⟨by rw [H2.free_eq, H1.free_eq],
                le_trans H1.len_mono H2.len_mono,
                by rw [H2.nameCol_eq, H1.nameCol_eq],
                by rw [H2.nameIdx_eq, H1.nameIdx_eq],
                by rw [H2.freeName_eq, H1.freeName_eq],
                by rw [H2.inst_eq, H1.inst_eq], ?_, ?_, ?_, ?_⟩
              · refine List.Nodup.append H1.nodup H2.nodup ?_
                intro j hj1 hj2
                have := hb1 j hj1
                have := (H2.fresh j hj2).2
                omega
              · intro j hj
                rcases List.mem_append.mp hj with hj1 | hj2
                · exact H1.fresh j hj1
                · exact hfresh2 j hj2
              · intro hok j hj
                rcases List.mem_append.mp hj with hj1 | hj2
                · exact lt_of_lt_of_le (hb1 j hj1) H2.len_mono
                · exact H2.bounded hok j hj2
              · intro k v hv
                exact H2.index_mono k v (H1.index_mono k v hv)

end

/-- The standalone `_save` (children, then json write) satisfies the same
state invariant as a full save; its trace holds the slots allocated by
the recursively saved sub-objects. -/
theorem save_rec_inv (o : Obj) (st st' : St) (i : Nat) (r : Except Err Unit) (tr : List Nat)
    (h : ObjectStore._save st o i = (st', r, tr)) :
    Sinv st st' (okb r) tr := by
  rw [ObjectStore._save] at h
  cases hk : ObjectStore.saveKids st o.kids with
  | mk st1 p1 =>
    cases p1 with
    | mk rk trk =>
      have K := saveKids_inv o.kids st st1 rk trk hk
      rw [hk] at h
      cases rk with
      | error e =>
        simp only [] at h
        injection h with h1 h2
        injection h2 with h2 h3
        subst h1; subst h2; subst h3
        exact K
      | ok u =>
        simp only [] at h
        by_cases hbad : o.bad
        · simp only [hbad, if_true] at h
          injection h with h1 h2
          injection h2 with h2 h3
          subst h1; subst h2; subst h3
          exact ⟨K.free_eq, K.len_mono, K.nameCol_eq, K.nameIdx_eq, K.freeName_eq,
            K.inst_eq, K.nodup, K.fresh, fun hok => absurd hok (by simp [okb]),
            K.index_mono⟩
        · simp only [hbad, if_false] at h
          injection h with h1 h2
          injection h2 with h2 h3
          subst h1; subst h2; subst h3
          refine ⟨K.free_eq, ?_, K.nameCol_eq, K.nameIdx_eq, K.freeName_eq,
            K.inst_eq, K.nodup, K.fresh, ?_, K.index_mono⟩
          · show st.length ≤ max st1.length (i + 1)
            have := K.len_mono
            omega
          · intro _ j hj
            show j < max st1.length (i + 1)
            have := K.bounded rfl j hj
            omega

/-- `NamedObjectStore.save` never touches the transient name reservation
set: the name column / name index writes and the base save leave
`_free_name` unchanged. -/
theorem namedSave_freeName (st : St) (o : Obj) (idx : Option String) :
    ((NamedObjectStore.save st o idx).1).freeName = st.freeName := by
  unfold NamedObjectStore.save
  simp only []
  cases hb : ObjectStore.save st (match idx with | some s => NamedObjectStore.setName o s | none => o) with
  | mk st1 p1 =>
    cases p1 with
    | mk r tr =>
      have H := (save_inv _ st st1 r tr hb).1
      cases r with
      | error e => exact H.freeName_eq
      | ok i => exact H.freeName_eq

/-! ## Demonstration stores (concrete inputs for witnesses and
counterexamples) -/

/-- A freshly registered, empty store whose content type accepts every
object. -/
def emptySt : St :=
  { length := 0, jsonCol := [], nameCol := [], free := ∅, index := [],
    cache := [], nameIdx := [], freeName := ∅, isInstance := fun _ => true }

/-- A plain leaf object (no sub-objects, healthy backend write). -/
def demoLeaf : Obj := .mk 5 "k" false false .nil

/-- An object whose own backend write fails. -/
def demoBad : Obj := .mk 7 "x" false true .nil

/-! ## Claim C1 -/

/-- Claim C1, counterexample: `DictStore.save` is a store save operation
whose chosen slot is *not* removed from the slot reservation set on the
normal exit path — saving one object into an empty `DictStore` under key
`"k"` succeeds with slot 0, yet slot 0 is still a member of `self._free`
afterwards (the source has no `release_idx` and no `try/finally`). -/
theorem claim_C1_counterexample :
    (DictStore.save emptySt demoLeaf (some "k")).2.1 = .ok 0 ∧
      0 ∈ ((DictStore.save emptySt demoLeaf (some "k")).1).free := by
  exact ⟨rfl, by decide⟩

/-- Claim C1ꞌ (amended): for `ObjectStore.save` the reservation set is
restored exactly on every exit path (normal return or propagated
failure), and the slots assigned across one (possibly recursive) save
tree are pairwise distinct — no two in-flight saves ever claim the same
slot; `DictStore.save`, however, reserves its chosen slot before the
backend write but never releases it: the reservation set afterwards
still contains the chosen slot on every exit path. -/
theorem claim_C1_amended :
    (∀ (st : St) (o : Obj),
      ((ObjectStore.save st o).1).free = st.free ∧
        ((ObjectStore.save st o).2.2).Nodup) ∧
    (∀ (st : St) (o : Obj) (s : String),
      ((DictStore.save st o (some s)).1).free = insert (ObjectStore.free st) st.free ∧
        ((DictStore.save st o (some s)).2.2).Nodup) := by
  constructor
  · intro st o
    have H := (save_inv o st (ObjectStore.save st o).1 (ObjectStore.save st o).2.1
      (ObjectStore.save st o).2.2 rfl).1
    exact ⟨H.free_eq, H.nodup⟩
  · intro st o s
    rw [DictStore.save]
    simp only []
    set i := ObjectStore.free st with hi
    have hfree := ObjectStore.free_spec st
    rw [← hi] at hfree
    cases hs : ObjectStore._save (ObjectStore.reserve_idx st i) o i with
    | mk st2 p =>
      cases p with
      | mk r tr =>
        have H := save_rec_inv o (ObjectStore.reserve_idx st i) st2 i r tr hs
        have hfr : st2.free = insert i st.free := H.free_eq
        have hnd : (i :: tr).Nodup := by
          refine List.nodup_cons.mpr ⟨?_, H.nodup⟩
          intro hm
          have := (H.fresh i hm).1
          exact this (Finset.mem_insert_self i st.free)
        cases r with
        | error e => exact ⟨hfr, hnd⟩
        | ok u =>
          simp only []
          exact ⟨by simpa [NamedObjectStore.updName, NamedObjectStore.writeName] using hfr, hnd⟩

/-! ## Claim C2 -/

/-- Claim C2, counterexample: when the backend write inside `save(obj)`
fails, the identity map *does* still map the object to the abandoned
slot — the source binds `self.index[obj] = n_idx` before the `try` block
and never undoes it on failure.  Saving a bad object into an empty named
store fails, yet the identity map afterwards maps the object (id 7) to
the abandoned slot 0. -/
theorem claim_C2_counterexample :
    (NamedObjectStore.save emptySt demoBad none).2.2.1 = .error .runtimeError ∧
      flook ((NamedObjectStore.save emptySt demoBad none).1).index 7 = some 0 := by
  exact ⟨rfl, rfl⟩

/-- Claim C2ꞌ (amended): if the backend write inside `save(obj)` of a
named store fails, the name index and the backend name column are left
untouched (so no name ever references the abandoned slot), but the
identity map *does* map the object to the abandoned slot (the binding is
made before the write and only disappears when the weakly held object is
garbage collected). -/
theorem claim_C2_amended (st st' : St) (o o' : Obj) (e : Err) (tr : List Nat)
    (hidx : flook st.index o.oid = none)
    (hinst : st.isInstance o.oid = true)
    (h : NamedObjectStore.save st o none = (st', o', .error e, tr)) :
    st'.nameIdx = st.nameIdx ∧ st'.nameCol = st.nameCol ∧
      flook st'.index o.oid = some (ObjectStore.free st) := by
  unfold NamedObjectStore.save at h
  simp only [] at h
  cases hb : ObjectStore.save st o with
  | mk st1 p1 =>
    cases p1 with
    | mk r tr1 =>
      have H := save_inv o st st1 r tr1 hb
      rw [hb] at h
      cases r with
      | error e1 =>
        simp only [] at h
        injection h with h1 h2
        injection h2 with h2 h3
        injection h3 with h3 h4
        subst h1
        exact ⟨H.1.nameIdx_eq, H.1.nameCol_eq, H.2.2 hidx hinst⟩
      | ok i =>
        simp only [] at h
        injection h with h1 h2
        injection h2 with h2 h3
        injection h3 with h3 h4
        exact Except.noConfusion h3

/-- Witness for C2ꞌ at a concrete input: the failing save of `demoBad`
into the empty named store leaves the name index and name column empty
while the identity map holds the abandoned binding. -/
theorem claim_C2_witness :
    ((NamedObjectStore.save emptySt demoBad none).1).nameIdx = emptySt.nameIdx ∧
      ((NamedObjectStore.save emptySt demoBad none).1).nameCol = emptySt.nameCol ∧
      flook ((NamedObjectStore.save emptySt demoBad none).1).index demoBad.oid =
        some (ObjectStore.free emptySt) :=
  claim_C2_amended emptySt (NamedObjectStore.save emptySt demoBad none).1 demoBad
    (NamedObjectStore.save emptySt demoBad none).2.1 .runtimeError
    (NamedObjectStore.save emptySt demoBad none).2.2.2
    (by rfl) (by rfl) (by rfl)

/-! ## Claim C3 -/

/-- Claim C3: re-saving is a pure no-op returning the original slot.
First part: if the identity map already binds the object, `save` returns
that slot with the state unchanged and an empty allocation trace (no
backend write).  Second part: after any successful `save(o)` returning
slot `i`, calling `save(o)` again returns `i` with the state unchanged
and no backend write — the slot binding is permanent. -/
theorem claim_C3 :
    (∀ (st : St) (o : Obj) (i : Nat), flook st.index o.oid = some i →
      ObjectStore.save st o = (st, .ok i, [])) ∧
    (∀ (st st1 : St) (o : Obj) (i : Nat) (tr : List Nat),
      ObjectStore.save st o = (st1, .ok i, tr) →
      ObjectStore.save st1 o = (st1, .ok i, [])) := by
  have base : ∀ (st : St) (o : Obj) (i : Nat), flook st.index o.oid = some i →
      ObjectStore.save st o = (st, .ok i, []) := by
    intro st o i hidx
    cases o with
    | mk oid nm fx bad kids =>
      simp only [Obj.oid] at hidx
      rw [ObjectStore.save, hidx]
  refine ⟨base, ?_⟩
  intro st st1 o i tr h
  have H := save_inv o st st1 (.ok i) tr h
  exact base st1 o i (H.2.1 i rfl)

/-- Witness for C3 at a concrete input: after saving `demoLeaf` into the
empty store (slot 0), a second save returns slot 0 again with the state
and backend untouched. -/
theorem claim_C3_witness :
    ObjectStore.save (ObjectStore.save emptySt demoLeaf).1 demoLeaf =
      ((ObjectStore.save emptySt demoLeaf).1, .ok 0, []) :=
  claim_C3.2 emptySt (ObjectStore.save emptySt demoLeaf).1 demoLeaf 0
    (ObjectStore.save emptySt demoLeaf).2.2 (by rfl)

/-! ## Claim C4 -/

/-- The base load of a slot below the current length returns exactly the
backend record at that slot, provided every cached entry agrees with the
backend (which every reachable state satisfies: the cache is only ever
filled from successful loads and saves). -/
theorem load_in_range (st : St) (m : Nat) (hm : m < st.length)
    (hcache : ∀ i o, flook st.cache i = some o → flook st.jsonCol i = some o) :
    ∃ st1, ObjectStore.load st (m : Int) = (st1, .ok (flook st.jsonCol m)) := by
  unfold ObjectStore.load
  have hneg : ¬ ((m : Int) < 0) := by omega
  simp only [hneg, if_false, Int.toNat_natCast]
  cases hc : flook st.cache m with
  | some o =>
    exact ⟨st, by rw [hcache m o hc]⟩
  | none =>
    have hlen : ¬ (st.length ≤ m) := by omega
    simp only [hlen, if_false]
    unfold ObjectStore._load
    cases hj : flook st.jsonCol m with
    | none => exact ⟨st, rfl⟩
    | some o => exact ⟨_, rfl⟩

/-- Claim C4: in a named store, `load(name)` for a recorded name resolves
to the numerically largest slot ever recorded under that name and
returns the object stored there; an unrecorded name fails with
`NotFound`.  The hypotheses state the maintained coherence invariants:
the name-index entry for the name consists of exactly the recorded slots
(nonempty for a recorded name, absent for an unrecorded one) and cached
entries agree with the backend. -/
theorem claim_C4 :
    (∀ (st : St) (nm : String) (S : Finset Nat),
      slook st.nameIdx nm = some S →
      (∀ i, i ∈ S ↔ (i < st.length ∧ flook st.nameCol i = some nm)) →
      (∀ i o, flook st.cache i = some o → flook st.jsonCol i = some o) →
      S.Nonempty →
      ∃ m, (m < st.length ∧ flook st.nameCol m = some nm) ∧
        (∀ i, i < st.length → flook st.nameCol i = some nm → i ≤ m) ∧
        (NamedObjectStore.load st (.s nm)).2 = .ok (flook st.jsonCol m)) ∧
    (∀ (st : St) (nm : String),
      (∀ i, ¬ (i < st.length ∧ flook st.nameCol i = some nm)) →
      slook st.nameIdx nm = none →
      (NamedObjectStore.load st (.s nm)).2 = .error .notFound) := by
  constructor
  · intro st nm S hS hchar hcache hne
    cases hm : S.max with
    | bot =>
      exact absurd (Finset.max_eq_bot.mp hm) (Finset.nonempty_iff_ne_empty.mp hne)
    | coe m =>
      have hmem : m ∈ S := Finset.mem_of_max hm
      have hrec := (hchar m).mp hmem
      refine ⟨m, hrec, ?_, ?_⟩
      · intro i hilen hinm
        exact Finset.le_max_of_eq ((hchar i).mpr ⟨hilen, hinm⟩) hm
      · obtain ⟨st1, hload⟩ := load_in_range st m hrec.1 hcache
        unfold NamedObjectStore.load
        simp only []
        rw [hS]
        simp only []
        rw [hm, ← WithBot.some_eq_coe]
        simp only []
        rw [hload]
        cases hj : flook st.jsonCol m with
        | none => rfl
        | some o => rfl
  · intro st nm _ hS
    unfold NamedObjectStore.load
    simp only []
    rw [hS]

/-- A small named store with two versions of the name `"a"`: slots 0
and 1 hold objects 10 and 11. -/
def namedDemoSt : St :=
  { emptySt with
    length := 2,
    jsonCol := [(0, 10), (1, 11)],
    nameCol := [(0, "a"), (1, "a")],
    nameIdx := [("a", {0, 1})] }

/-- Witness for C4 at a concrete input: in `namedDemoSt`, loading `"a"`
resolves to slot 1 (the larger of the two recorded slots) and returns
object 11, and loading the unrecorded `"zz"` fails with `NotFound`. -/
theorem claim_C4_witness :
    (∃ m, (m < namedDemoSt.length ∧ flook namedDemoSt.nameCol m = some "a") ∧
      (∀ i, i < namedDemoSt.length → flook namedDemoSt.nameCol i = some "a" → i ≤ m) ∧
      (NamedObjectStore.load namedDemoSt (.s "a")).2 = .ok (flook namedDemoSt.jsonCol m)) ∧
    (NamedObjectStore.load namedDemoSt (.s "zz")).2 = .error .notFound := by
  constructor
  · apply claim_C4.1 namedDemoSt "a" {0, 1}
    · rfl
    · intro i
      constructor
      · intro hi
        rcases Finset.mem_insert.mp hi with h0 | h1
        · subst h0; exact ⟨by decide, by decide⟩
        · rw [Finset.mem_singleton] at h1
          subst h1; exact ⟨by decide, by decide⟩
      · intro ⟨hlen, hcol⟩
        show i ∈ ({0, 1} : Finset Nat)
        simp only [namedDemoSt, emptySt] at hlen hcol
        interval_cases i
        · exact Finset.mem_insert_self 0 _
        · exact Finset.mem_insert_of_mem (Finset.mem_singleton_self 1)
    · intro i o hio
      simp [namedDemoSt, emptySt, flook] at hio
    · exact ⟨0, by decide⟩
  · apply claim_C4.2 namedDemoSt "zz"
    · intro i
      intro ⟨hlen, hcol⟩
      simp only [namedDemoSt, emptySt] at hlen hcol
      interval_cases i <;> simp [flook] at hcol
    · rfl

/-! ## Claim C5 -/

/-- A unique-named store holding one committed live object: object 5 at
slot 0 under the name `"a"`. -/
def uniqueDemoSt : St :=
  { emptySt with
    length := 1,
    jsonCol := [(0, 5)],
    nameCol := [(0, "a")],
    index := [(5, 0)],
    cache := [(0, 5)],
    nameIdx := [("a", {0})] }

/-- A second, distinct object (id 9) whose name is already fixed to
`"a"` but which has never been saved into this store. -/
def demoFixedDup : Obj := .mk 9 "a" true false .nil

/-- Claim C5, failing input: in `uniqueDemoSt` the name `"a"` is locked
(it is bound to the live committed object 5 at slot 0), yet saving the
distinct object 9 — name already fixed to `"a"` — with the explicit
index `"a"` does *not* raise `NameConflict`: the source's
`fixed ∧ name == idx` branch only consults the identity map and skips
`is_name_locked` entirely, so the save succeeds at slot 1 and the name
index afterwards holds two live objects under `"a"`.  (The sibling
branch for the same object saved *without* an explicit index raises,
with a diagnostic stating such an object "cannot be saved at all".) -/
theorem claim_C5_bug_eval :
    UniqueNamedObjectStore.is_name_locked uniqueDemoSt "a" = true ∧
      (UniqueNamedObjectStore.save uniqueDemoSt demoFixedDup (some "a")).2.2.1 = .ok 1 ∧
      slook ((UniqueNamedObjectStore.save uniqueDemoSt demoFixedDup (some "a")).1).nameIdx "a" =
        some {1, 0} := by
  refine ⟨rfl, rfl, by decide⟩

/-! ## Claim C6 -/

/-- An unfixed object named `"old"`, about to be saved under the new
name `"new"`. -/
def demoRename : Obj := .mk 4 "old" false false .nil

/-- Claim C6, counterexample: saving the unfixed object `demoRename`
into an empty unique-named store under the explicit new name `"new"`
passes every conflict check and commits the object under `"new"`
(slot 0, name column `"new"`), yet the name reservation step reserves
only the object's *old* name: the reserved set during the entire inner
save is `{"old"}` and the committed name `"new"` is never a member of
the transient name reservation set. -/
theorem claim_C6_counterexample :
    (UniqueNamedObjectStore.save emptySt demoRename (some "new")).2.2.1 = .ok 0 ∧
      flook ((UniqueNamedObjectStore.save emptySt demoRename (some "new")).1).nameCol 0 =
        some "new" ∧
      (UniqueNamedObjectStore.reserve_name emptySt demoRename.nm).freeName = {"old"} ∧
      "new" ∉ (UniqueNamedObjectStore.reserve_name emptySt demoRename.nm).freeName := by
  refine ⟨rfl, rfl, by decide, by decide⟩

/-- The reservation-protected tail of the unique save restores the name
reservation set on every exit path: the object's entry name is reserved,
the inner named save leaves the reservation set untouched, and the
`finally` release removes exactly the entry reservation. -/
theorem saveReserved_freeName (st : St) (o : Obj) (idx : Option String)
    (hnm : o.nm ∉ st.freeName) :
    ((UniqueNamedObjectStore.saveReserved st o idx).1).freeName = st.freeName := by
  unfold UniqueNamedObjectStore.saveReserved
  have h2 := namedSave_freeName (UniqueNamedObjectStore.reserve_name st o.nm) o idx
  show ((NamedObjectStore.save (UniqueNamedObjectStore.reserve_name st o.nm) o idx).1).freeName.erase o.nm = st.freeName
  rw [h2]
  unfold UniqueNamedObjectStore.reserve_name
  by_cases he : o.nm = ""
  · rw [if_pos he]
    exact Finset.erase_eq_of_not_mem hnm
  · rw [if_neg he]
    show (insert o.nm st.freeName).erase o.nm = st.freeName
    exact Finset.erase_insert hnm

/-- Claim C6ꞌ (amended): (1) the reservation step locks the object's
name as read at entry — before any rename — whenever that name is
nonempty; (2) the inner (named, possibly recursive) save never modifies
the name reservation set, so a name reserved at entry stays reserved for
the entire duration of the inner save; (3) on every exit path of
`UniqueNamedObjectStore.save` (early return, conflict, success or
propagated failure) the reservation set is restored to its entry value.
The name under which the object is committed can differ from the
reserved one (an explicit new name for an unfixed object) and is never
reserved, and an empty name is never reserved. -/
theorem claim_C6_amended :
    (∀ (st : St) (nm : String), nm ≠ "" →
      nm ∈ (UniqueNamedObjectStore.reserve_name st nm).freeName) ∧
    (∀ (st : St) (o : Obj) (idx : Option String),
      ((NamedObjectStore.save st o idx).1).freeName = st.freeName) ∧
    (∀ (st st' : St) (o o' : Obj) (idx : Option String) (r : Except Err Nat) (tr : List Nat),
      o.nm ∉ st.freeName →
      UniqueNamedObjectStore.save st o idx = (st', o', r, tr) →
      st'.freeName = st.freeName) := by
  refine ⟨?_, namedSave_freeName, ?_⟩
  · intro st nm hnm
    unfold UniqueNamedObjectStore.reserve_name
    rw [if_neg hnm]
    exact Finset.mem_insert_self nm st.freeName
  · intro st st' o o' idx r tr hnm h
    unfold UniqueNamedObjectStore.save at h
    simp only [] at h
    repeat' split at h
    all_goals
      have h1 := congrArg Prod.fst h
    all_goals
      simp only [] at h1
    all_goals
      subst h1
    all_goals
      first
      | rfl
      | exact saveReserved_freeName st o _ hnm

/-- Witness for C6ꞌ at a concrete input: the entry name `"old"` of
`demoRename` is in the reservation set right after the reservation step,
and the rename-save into the empty store restores the (empty) name
reservation set on exit. -/
theorem claim_C6_witness :
    "old" ∈ (UniqueNamedObjectStore.reserve_name emptySt "old").freeName ∧
      ((UniqueNamedObjectStore.save emptySt demoRename (some "new")).1).freeName =
        emptySt.freeName :=
  ⟨claim_C6_amended.1 emptySt "old" (by decide),
   claim_C6_amended.2.2 emptySt
     (UniqueNamedObjectStore.save emptySt demoRename (some "new")).1 demoRename
     (UniqueNamedObjectStore.save emptySt demoRename (some "new")).2.1 (some "new")
     (UniqueNamedObjectStore.save emptySt demoRename (some "new")).2.2.1
     (UniqueNamedObjectStore.save emptySt demoRename (some "new")).2.2.2
     (by decide) (by rfl)⟩

/-! ## Claim C7 -/

/-! ## Claim C7 -/

/-- Claim C7, counterexample: not every store returns an empty result
for an out-of-range slot — `DictStore.load` of integer slot 0 in an
empty store raises `RuntimeError` instead. -/
theorem claim_C7_counterexample :
    DictStore.load emptySt (.i 0) = .error .runtimeError := by
  rfl

/-- Claim C7ꞌ (amended): the base `ObjectStore.load` returns an empty
result (`None`) for every negative slot, and for every slot at or
beyond the current length (given the maintained invariant that cached
slots lie below the length); `DictStore.load`, however, raises
`RuntimeError` for an out-of-range or negative integer slot. -/
theorem claim_C7_amended :
    (∀ (st : St) (idx : Int), idx < 0 →
      ObjectStore.load st idx = (st, .ok none)) ∧
    (∀ (st : St) (idx : Int), 0 ≤ idx → (st.length : Int) ≤ idx →
      (∀ j o, flook st.cache j = some o → j < st.length) →
      ObjectStore.load st idx = (st, .ok none)) ∧
    (∀ (st : St) (n : Int), (st.length : Int) ≤ n ∨ n < 0 →
      DictStore.load st (.i n) = .error .runtimeError) := by
  refine ⟨?_, ?_, ?_⟩
  · intro st idx hneg
    unfold ObjectStore.load
    rw [if_pos hneg]
  · intro st idx h0 hlen hcache
    unfold ObjectStore.load
    rw [if_neg (by omega)]
    simp only []
    have htn : st.length ≤ idx.toNat := by omega
    cases hc : flook st.cache idx.toNat with
    | some o =>
      have := hcache _ _ hc
      omega
    | none =>
      simp only []
      rw [if_pos htn]
  · intro st n hn
    unfold DictStore.load
    simp only []
    by_cases hge : (n : Int) ≥ (st.length : Int)
    · rw [if_pos hge]
    · rw [if_neg hge, if_pos (by omega)]

/-- Witness for C7ꞌ at concrete inputs: in the empty store, loading
slot −1 and slot 3 both return an empty result from the base store, and
`DictStore.load` of slot 5 raises. -/
theorem claim_C7_witness :
    ObjectStore.load emptySt (-1) = (emptySt, .ok none) ∧
      ObjectStore.load emptySt 3 = (emptySt, .ok none) ∧
      DictStore.load emptySt (.i 5) = .error .runtimeError :=
  ⟨claim_C7_amended.1 emptySt (-1) (by decide),
   claim_C7_amended.2.1 emptySt 3 (by decide) (by decide)
     (by intro j o hj; simp [emptySt, flook] at hj),
   claim_C7_amended.2.2 emptySt 5 (Or.inl (by decide))⟩

/-! ## Claim C8 -/

/-- A flat-record (`VariableStore`) state with two records on slots 0
and 1 and a cold cache. -/
def vDemoSt : VSt :=
  { length := 2, recs := [(0, 10), (1, 11)], cache := [], index := [],
    cachedAll := false }

/-- Claim C8, failing input: `cache_all` with the explicit proper subset
`[0]` of `vDemoSt`'s two slots caches only slot 0 — but it *does* set
the "fully cached" flag, so the later full `cache_all()` is a no-op and
slot 1 is never bulk-loaded (the source sets `self._cached_all = True`
regardless of whether `part` was a subset).  The subset is de-duplicated
and sorted as claimed (`[0,1,0]` is processed as `[0,1]`). -/
theorem claim_C8_bug_eval :
    ((VariableStore.cache_all vDemoSt (some [0])).cachedAll = true ∧
      flook (VariableStore.cache_all vDemoSt (some [0])).cache 0 = some 10 ∧
      flook (VariableStore.cache_all vDemoSt (some [0])).cache 1 = none) ∧
    VariableStore.cache_all (VariableStore.cache_all vDemoSt (some [0])) none =
      VariableStore.cache_all vDemoSt (some [0]) ∧
    flook (VariableStore.cache_all (VariableStore.cache_all vDemoSt (some [0])) none).cache 1 =
      none ∧
    VariableStore.dedupSort [0, 1, 0] = [0, 1] := by
  exact ⟨⟨rfl, rfl, rfl⟩, rfl, rfl, rfl⟩

/-! ## Claim C9 -/

/-- Claim C9, counterexample: `proxy` does not return a lazy placeholder
for *every* object of the store's content type — for an object that is
not in the identity map (id 5 in the empty store) it returns the object
itself, not a `LoaderProxy`. -/
theorem claim_C9_counterexample :
    ObjectStore.proxy emptySt (.objIt 5) = .raw 5 := by
  rfl

/-- Claim C9ꞌ (amended): `proxy` returns a lazy `LoaderProxy(store, slot)`
for an integer argument (wrapping it directly) and for an object found
in the identity map (wrapping its slot); an object absent from the
identity map is returned unchanged, and `None` maps to `None`. -/
theorem claim_C9_amended :
    (∀ st : St, ObjectStore.proxy st .noneIt = .noneR) ∧
    (∀ (st : St) (n : Int), ObjectStore.proxy st (.intIt n) = .loaderProxy n) ∧
    (∀ (st : St) (o i : Nat), flook st.index o = some i →
      ObjectStore.proxy st (.objIt o) = .loaderProxy (i : Int)) ∧
    (∀ (st : St) (o : Nat), flook st.index o = none →
      ObjectStore.proxy st (.objIt o) = .raw o) := by
  refine ⟨fun _ => rfl, fun _ _ => rfl, ?_, ?_⟩
  · intro st o i h
    unfold ObjectStore.proxy
    simp only []
    rw [h]
  · intro st o h
    unfold ObjectStore.proxy
    simp only []
    rw [h]

/-- Witness for C9ꞌ at concrete inputs: in the store holding object 5 at
slot 0, `proxy` wraps the saved object 5 into a `LoaderProxy` on slot 0,
wraps the integer 3 directly, and returns the unsaved object 9
unchanged. -/
theorem claim_C9_witness :
    ObjectStore.proxy uniqueDemoSt (.objIt 5) = .loaderProxy 0 ∧
      ObjectStore.proxy uniqueDemoSt (.intIt 3) = .loaderProxy 3 ∧
      ObjectStore.proxy uniqueDemoSt (.objIt 9) = .raw 9 :=
  ⟨claim_C9_amended.2.2.1 uniqueDemoSt 5 0 (by rfl),
   claim_C9_amended.2.1 uniqueDemoSt 3,
   claim_C9_amended.2.2.2 uniqueDemoSt 9 (by rfl)⟩

/-! ## Claim C10 -/

/-- Well-formedness of the name index dictionary: every stored slot set
is non-empty. -/
def NameIdxWF (l : List (String × Finset Nat)) : Prop :=
  ∀ nm s, slook l nm = some s → s.Nonempty

/-- Claim C10: `find_indices` (and `find_all`) raise `KeyError` for a
name that is not in the name index, and an empty-list result is
unreachable: the name index only ever holds non-empty slot sets — it
starts empty and `_update_name_in_cache`, its only writer, preserves
non-emptiness — so a successful `find_indices` never returns `[]` and a
successful `find_all` never falls into its implicit-`None` branch. -/
theorem claim_C10 :
    (∀ (st : St) (nm : String), slook st.nameIdx nm = none →
      NamedObjectStore.find_indices st nm = .error .keyError) ∧
    (∀ (st : St) (nm : String) (l : List Nat), NameIdxWF st.nameIdx →
      NamedObjectStore.find_indices st nm = .ok l → l ≠ []) ∧
    (∀ (st : St) (nm : String), slook st.nameIdx nm = none →
      NamedObjectStore.find_all st nm = .error .keyError) ∧
    (∀ (st : St) (nm : String) (r : Option (List Nat)), NameIdxWF st.nameIdx →
      NamedObjectStore.find_all st nm = .ok r →
      ∃ lst, r = some lst ∧ lst ≠ []) ∧
    NameIdxWF [] ∧
    (∀ (l : List (String × Finset Nat)) (nm : String) (i : Nat),
      NameIdxWF l → NameIdxWF (NamedObjectStore.update_name_in_cache l nm i)) := by
  have hsort : ∀ (s : Finset Nat), s.Nonempty → s.sort (· ≤ ·) ≠ [] := by
    intro s hs
    have hlen : (s.sort (· ≤ ·)).length = s.card := Finset.length_sort _
    have hpos : 0 < s.card := Finset.card_pos.mpr hs
    intro he
    rw [he] at hlen
    simp at hlen
    omega
  refine ⟨?_, ?_, ?_, ?_, ?_, ?_⟩
  · intro st nm h
    unfold NamedObjectStore.find_indices
    rw [h]
  · intro st nm l hwf h
    unfold NamedObjectStore.find_indices at h
    cases hs : slook st.nameIdx nm with
    | none => rw [hs] at h; exact Except.noConfusion h
    | some s =>
      rw [hs] at h
      injection h with h
      subst h
      exact hsort s (hwf nm s hs)
  · intro st nm h
    unfold NamedObjectStore.find_all
    rw [h]
  · intro st nm r hwf h
    unfold NamedObjectStore.find_all at h
    cases hs : slook st.nameIdx nm with
    | none => rw [hs] at h; exact Except.noConfusion h
    | some s =>
      rw [hs] at h
      simp only [] at h
      have hpos : 0 < s.card := Finset.card_pos.mpr (hwf nm s hs)
      rw [if_pos hpos] at h
      injection h with h
      subst h
      exact ⟨s.sort (· ≤ ·), rfl, hsort s (hwf nm s hs)⟩
  · intro nm s h
    exact Option.noConfusion h
  · intro l nm i hwf nm' s' h
    unfold NamedObjectStore.update_name_in_cache at h
    by_cases he : nm = ""
    · rw [if_pos he] at h
      exact hwf nm' s' h
    · rw [if_neg he] at h
      cases hl : slook l nm with
      | none =>
        rw [hl] at h
        by_cases hnm : nm = nm'
        · subst hnm
          rw [show slook ((nm, ({i} : Finset Nat)) :: l) nm = some {i} by simp [slook]] at h
          injection h with h
          subst h
          exact ⟨i, Finset.mem_singleton_self i⟩
        · rw [show slook ((nm, ({i} : Finset Nat)) :: l) nm' = slook l nm' by
            simp [slook, hnm]] at h
          exact hwf nm' s' h
      | some s0 =>
        rw [hl] at h
        by_cases hnm : nm = nm'
        · subst hnm
          rw [show slook ((nm, insert i s0) :: l) nm = some (insert i s0) by simp [slook]] at h
          injection h with h
          subst h
          exact ⟨i, Finset.mem_insert_self i s0⟩
        · rw [show slook ((nm, insert i s0) :: l) nm' = slook l nm' by
            simp [slook, hnm]] at h
          exact hwf nm' s' h

/-- Witness for C10 at concrete inputs: in `namedDemoSt` (whose name
index holds `"a" ↦ {0, 1}`), `find_indices "zz"` and `find_all "zz"`
raise `KeyError`, `find_indices "a"` returns the non-empty `[0, 1]`,
and the updated index after `_update_name_in_cache` stays well-formed. -/
theorem claim_C10_witness :
    NamedObjectStore.find_indices namedDemoSt "zz" = .error .keyError ∧
      NamedObjectStore.find_all namedDemoSt "zz" = .error .keyError ∧
      ([0, 1] : List Nat) ≠ [] ∧
      NameIdxWF (NamedObjectStore.update_name_in_cache [] "b" 4) := by
  refine ⟨claim_C10.1 namedDemoSt "zz" (by rfl),
    claim_C10.2.2.1 namedDemoSt "zz" (by rfl),
    claim_C10.2.1 namedDemoSt "a" [0, 1] ?_ ?_,
    claim_C10.2.2.2.2.2 [] "b" 4 claim_C10.2.2.2.2.1⟩
  · intro nm s h
    simp only [namedDemoSt, emptySt] at h
    by_cases hnm : nm = "a"
    · subst hnm
      rw [show slook [("a", ({0, 1} : Finset Nat))] "a" = some {0, 1} by simp [slook]] at h
      injection h with h
      subst h
      exact ⟨0, by decide⟩
    · have hne : ¬ ("a" = nm) := fun hh => hnm hh.symm
      rw [show slook [("a", ({0, 1} : Finset Nat))] nm = none by simp [slook, hne]] at h
      exact Option.noConfusion h
  · unfold NamedObjectStore.find_indices
    rw [show slook namedDemoSt.nameIdx "a" = some {0, 1} from rfl]
    simp only []
    have hsi : Finset.sort (fun x1 x2 : Nat => x1 ≤ x2) (insert 0 {1}) =
        0 :: Finset.sort (fun x1 x2 : Nat => x1 ≤ x2) {1} :=
      Finset.sort_insert _ (by decide) (by decide)
    rw [hsi, Finset.sort_singleton]

end NetcdfPlus
